import Mathlib

/-!
Verification of the ghighi quote-tracking core (`src/app.py`).

A shallow embedding of the storage abstraction and derivation layer of
`src/app.py`: the append-only observation stores, the schema normalizer
`ensure_columns`, the event-filtered view derivations (latest-per-player
snapshot, chart data), the implied-probability computation on the
submission path, and backend selection in `get_storage`.

Conventions of the embedding:
* Python floats are modelled as rationals (`ℚ`); Python's `round(x, n)`
  (banker's rounding, half to even) is modelled by `pyRound`.
* A pandas `DataFrame` of the six-column log, after the temporal parsing
  steps `pd.to_datetime(..., errors="coerce")`, is modelled as a list of
  `Rec` whose temporal fields are `Option Nat` (`none` models `NaT`) and
  whose `player` is `Option String` (`none` models `NaN`).
* `sort_values` is modelled as a stable insertion sort on the key.
* The CSV file behind `LocalCSVStorage` is modelled as the sequence of its
  data rows (the header row written at construction is fixed and implicit).
* `st.secrets` is modelled as an association list that is either readable
  or raises (`Except Unit Secrets`); the external JSON parser used by
  `json.loads` is an arbitrary function parameter.
-/

/-- The fixed column list `DATA_COLUMNS` from `src/app.py` lines 17-24. -/
def DATA_COLUMNS : List String :=
  ["timestamp_utc", "date", "player", "event", "quote", "implied_probability"]

/-! ## Rows and the local CSV store (`LocalCSVStorage`, lines 43-55) -/

/-- One row of the append log, as built by the submission path
(`row = {...}` dict at lines 227-234). Numeric fields are rationals. -/
structure Row where
  timestamp_utc : String
  date : String
  player : String
  event : String
  quote : ℚ
  implied_probability : ℚ
  deriving DecidableEq, Repr

/-- State of `LocalCSVStorage`: the sequence of data rows of the CSV file at
`self.path` (the header line is constant and not part of the state). -/
abbrev LocalCSVStorage := List Row

/-- A freshly constructed store over an absent file: `__init__` (lines 44-48)
writes only the header row, so there are no data rows. -/
def LocalCSVStorage.empty : LocalCSVStorage := []

/-- `LocalCSVStorage.read` (lines 50-51): `pd.read_csv(self.path)` returns all
data rows in file order. -/
def LocalCSVStorage.read (file : LocalCSVStorage) : List Row := file

/-- `LocalCSVStorage.append` (lines 53-55): `df.to_csv(self.path, mode="a",
header=False, index=False)` appends exactly one data row at the end of the
file, touching nothing before it. -/
def LocalCSVStorage.append (file : LocalCSVStorage) (r : Row) : LocalCSVStorage :=
  file ++ [r]

/-- Appending a sequence of records one at a time, in order. -/
def LocalCSVStorage.appendAll (file : LocalCSVStorage) (rs : List Row) : LocalCSVStorage :=
  rs.foldl LocalCSVStorage.append file

theorem LocalCSVStorage.appendAll_eq (file : LocalCSVStorage) (rs : List Row) :
    LocalCSVStorage.appendAll file rs = file ++ rs := by
  induction rs generalizing file with
  | nil => simp [appendAll]
  | cons r rs ih =>
    simp only [appendAll, List.foldl_cons] at *
    rw [ih (file.append r)]
    simp [append]

/-! ## Python rounding and the implied-probability computation -/

/-- Round a rational to the nearest integer, halves to even: the rounding used
by Python's builtin `round`. -/
def roundHalfEven (x : ℚ) : ℤ :=
  if x - ⌊x⌋ < 1/2 then ⌊x⌋
  else if 1/2 < x - ⌊x⌋ then ⌊x⌋ + 1
  else if ⌊x⌋ % 2 = 0 then ⌊x⌋ else ⌊x⌋ + 1

/-- Python's `round(x, n)` on our rational model of floats. -/
def pyRound (n : ℕ) (x : ℚ) : ℚ :=
  (roundHalfEven (x * 10 ^ n) : ℚ) / 10 ^ n

/-- Line 214: `quote_value = round(float(quote_value), 2)` — the quote value
actually used, derived from the raw UI input. -/
def submittedQuote (qin : ℚ) : ℚ := pyRound 2 qin

/-- Line 215: `implied_probability = 1 / quote_value if quote_value else 0.0`
— the on-demand preview value shown in the metric before commit. -/
def previewImplied (quote_value : ℚ) : ℚ :=
  if quote_value ≠ 0 then 1 / quote_value else 0

/-- The `implied_probability` field of the committed row
(line 233: `round(implied_probability, 6)`). -/
def submittedImplied (qin : ℚ) : ℚ :=
  pyRound 6 (previewImplied (submittedQuote qin))

/-- The row dict built at lines 227-234 from the submission inputs: the player
and event names are stripped, the quote is the 2-decimal rounded input, and
the implied probability is the 6-decimal rounding of the preview value. -/
def buildRow (ts d player event : String) (qin : ℚ) : Row :=
  { timestamp_utc := ts
    date := d
    player := player.trim
    event := event.trim
    quote := submittedQuote qin
    implied_probability := submittedImplied qin }

/-! ## The submit handler (lines 218-237) -/

/-- Result of one click of the submit button: the resulting log and whether
`storage.append` was called. -/
structure SubmitResult where
  log : List Row
  appendCalled : Bool
  deriving Repr

/-- Lines 219-237: on submit, an empty event name or an empty player name
stops the handler (`st.error` + `st.stop()`) before any append; otherwise the
built row is appended to the store. -/
def submitHandler (event_name player_name : String) (ts d : String) (qin : ℚ)
    (log : LocalCSVStorage) : SubmitResult :=
  if event_name = "" then { log := log, appendCalled := false }
  else if player_name = "" then { log := log, appendCalled := false }
  else { log := log.append (buildRow ts d player_name event_name qin), appendCalled := true }

/-! ## The parsed event table (`main`, lines 128-190) -/

/-- One row of the event table after the temporal parsing steps: `date` and
`timestamp_utc` hold the values produced by `pd.to_datetime(...,
errors="coerce")` (`none` models `NaT`), `player` is `none` when the cell is
`NaN`, and the numeric columns are rationals. -/
structure Rec where
  timestamp_utc : Option Nat
  date : Option Nat
  player : Option String
  event : String
  quote : ℚ
  implied_probability : ℚ
  deriving DecidableEq, Repr

/-- Line 130: `data[data["event"] == event_name]` — keep the rows of the
selected event, in stored order. -/
def eventFilter (event_name : String) (rows : List Rec) : List Rec :=
  rows.filter (fun r => r.event = event_name)

/-- Sort key used by `sort_values("timestamp_utc")`; only applied after the
corresponding `dropna`, where the field is present. -/
def tsKey (r : Rec) : ℕ := r.timestamp_utc.getD 0

/-- Sort key used by `sort_values("date")`; only applied after the
corresponding `dropna`, where the field is present. -/
def dateKey (r : Rec) : ℕ := r.date.getD 0

/-- Insert a record into a list sorted on `key`, before the first element
whose key is not smaller: combined with `sortValuesBy` this yields a stable
sort. -/
def insortBy (key : Rec → ℕ) (r : Rec) : List Rec → List Rec
  | [] => [r]
  | s :: rest => if key s < key r then s :: insortBy key r rest else r :: s :: rest

/-- One concrete conforming implementation of pandas `sort_values(column)`:
an insertion sort producing a sorted permutation of the input. The default
`sort_values` kind is not stable, so no derivation below is allowed to rely
on how this particular implementation orders rows with equal keys; where that
order could matter (the snapshot pipeline) the sort is a parameter
constrained only by `isSortValuesImpl`. -/
def sortValuesBy (key : Rec → ℕ) : List Rec → List Rec
  | [] => []
  | r :: rest => insortBy key r (sortValuesBy key rest)

/-- Line 177: `dropna(subset=["player", "timestamp_utc"])` — the rows entering
the latest-per-player derivation. -/
def snapshotValid (r : Rec) : Bool := r.player.isSome && r.timestamp_utc.isSome

/-- Model of `groupby("player", as_index=False).tail(1)`: keep a row exactly
when no later row of the frame has the same player. -/
def keepLastPerPlayer : List Rec → List Rec
  | [] => []
  | r :: rest =>
    if rest.any (fun s => s.player = r.player) then keepLastPerPlayer rest
    else r :: keepLastPerPlayer rest

/-- What pandas guarantees of `sort_values(column)` under the default
`kind='quicksort'`: the result is a permutation of the input, sorted on the
key. The relative order of rows with equal keys is NOT specified — the
default sort is not stable — so any function satisfying this predicate is a
possible behavior of line 178. -/
def isSortValuesImpl (key : Rec → ℕ) (sortImpl : List Rec → List Rec) : Prop :=
  ∀ l : List Rec, (sortImpl l).Perm l ∧ (sortImpl l).Sorted (fun a b => key a ≤ key b)

/-- Lines 173-181, parametrized over the sort: the latest-per-player table
(`latest_idx`) for the selected event — drop rows with missing player or
unparsable timestamp, sort by timestamp with a conforming `sort_values`
implementation, then take the last row of each player group. -/
def latestPerPlayerWith (sortImpl : List Rec → List Rec) (event_name : String)
    (rows : List Rec) : List Rec :=
  keepLastPerPlayer (sortImpl ((eventFilter event_name rows).filter snapshotValid))

/-- Whether a record belongs to player `p`. -/
def isPlayer (p : String) (r : Rec) : Bool := r.player = some p

/-! ## The chart view (`main`, lines 135-167) -/

/-- Line 136: `dropna(subset=["player", "date"])` — the validity condition for
rows entering the chart. -/
def chartValid (r : Rec) : Bool := r.player.isSome && r.date.isSome

/-- Lines 136-137: `chart_data` — event rows with a valid player and a
parsable date, stable-sorted by date. -/
def chartRows (event_name : String) (rows : List Rec) : List Rec :=
  sortValuesBy dateKey ((eventFilter event_name rows).filter chartValid)

/-- What the chart column renders: either the Altair chart over `chart_data`,
or the placeholder text `"Ancora nessuna quote per questo evento."`. -/
inductive ChartView where
  | chart (rows : List Rec)
  | placeholderMessage
  deriving DecidableEq, Repr

/-- Lines 138-167: when `chart_data` is empty a placeholder message is shown,
otherwise the chart is drawn over all of `chart_data`. -/
def chartView (event_name : String) (rows : List Rec) : ChartView :=
  let cd := chartRows event_name rows
  if cd.isEmpty then ChartView.placeholderMessage else ChartView.chart cd

/-- Number of distinct calendar dates on which player `p` has a recorded value
among the given rows (used to state the chart-threshold claim). -/
def distinctDates (p : String) (rows : List Rec) : ℕ :=
  (((rows.filter (fun r => r.player = some p && r.date.isSome)).map dateKey).eraseDups).length

/-! ## The schema normalizer (`ensure_columns`, lines 98-102) -/

/-- A pandas `DataFrame` as used by `ensure_columns`: named columns of cell
lists, in order. -/
structure DF where
  cols : List (String × List String)
  deriving DecidableEq, Repr

/-- The column names of a frame, in order (`df.columns`). -/
def DF.colNames (df : DF) : List String := df.cols.map Prod.fst

/-- The cells of the first column named `c`, when present. -/
def DF.getCol (df : DF) (c : String) : Option (List String) :=
  (df.cols.find? (fun pr => pr.1 = c)).map Prod.snd

/-- The number of rows of the frame (the length of its first column; a frame
with no columns has no rows). -/
def DF.nrows (df : DF) : ℕ :=
  match df.cols with
  | [] => 0
  | c :: _ => c.2.length

/-- Line 101: `df[col] = ""` on a frame not containing `col` — append a new
column of empty strings, broadcast to the frame's row count. -/
def DF.setEmptyCol (df : DF) (c : String) : DF :=
  ⟨df.cols ++ [(c, List.replicate df.nrows "")]⟩

/-- One iteration of the loop at lines 99-101. -/
def fillStep (d : DF) (c : String) : DF :=
  if c ∈ d.colNames then d else d.setEmptyCol c

/-- Lines 98-102: add every missing column of `DATA_COLUMNS` as empty strings,
then select exactly `DATA_COLUMNS`, in order (`return df[DATA_COLUMNS]`). -/
def ensure_columns (df : DF) : DF :=
  let filled := DATA_COLUMNS.foldl fillStep df
  ⟨DATA_COLUMNS.map (fun c => (c, (filled.getCol c).getD []))⟩

/-! ## Backend selection (`get_storage`, lines 80-95) -/

/-- A value stored in `st.secrets`: a raw string, or a dict-shaped credential
mapping (`st.secrets` sections behave like mappings). -/
inductive SecretVal where
  | str (s : String)
  | dict (d : List (String × String))
  deriving DecidableEq, Repr

/-- The `st.secrets` mapping. -/
structure Secrets where
  entries : List (String × SecretVal)
  deriving DecidableEq, Repr

/-- Key membership test (`"GSHEETS_DOC_ID" in st.secrets`). -/
def Secrets.hasKey (s : Secrets) (k : String) : Bool :=
  s.entries.any (fun pr => pr.1 = k)

/-- Lookup (`st.secrets[k]` / `st.secrets.get(k, default)` without the
default). -/
def Secrets.get? (s : Secrets) (k : String) : Option SecretVal :=
  (s.entries.find? (fun pr => pr.1 = k)).map Prod.snd

/-- The distinguishable construction failures of the remote path: the
`RuntimeError` of `GoogleSheetStorage.__init__` (line 61) and the JSON decode
error of `json.loads` (line 89). -/
inductive StoreError where
  | gspreadUnavailable
  | credentialsUnparsable
  deriving DecidableEq, Repr

/-- The storage object returned by `get_storage`: the local CSV backend at a
path, or the remote sheet backend with its connection data. -/
inductive StorageModel where
  | localCSV (path : String)
  | googleSheet (doc_id worksheet : SecretVal) (credentials : List (String × String))
  deriving DecidableEq, Repr

/-- `GoogleSheetStorage.__init__` (lines 59-68): raises when the gspread
client library is unavailable; the subsequent credential/session calls are
external collaborators, modelled as succeeding. -/
def GoogleSheetStorage.init (gspreadAvailable : Bool) (doc_id worksheet : SecretVal)
    (credentials : List (String × String)) : Except StoreError StorageModel :=
  if gspreadAvailable then Except.ok (StorageModel.googleSheet doc_id worksheet credentials)
  else Except.error StoreError.gspreadUnavailable

/-- The credential payload as parsed at lines 87-91: a string payload goes
through `json.loads` (the external parser `parseJson`, `none` modelling a
decode error), a dict-shaped payload is converted directly. -/
def parsedCreds (parseJson : String → Option (List (String × String))) (s : Secrets) :
    Option (List (String × String)) :=
  match (s.get? "GSPREAD_SERVICE_ACCOUNT").getD (SecretVal.str "") with
  | SecretVal.str raw => parseJson raw
  | SecretVal.dict d => some d

/-- `get_storage` (lines 80-95): probing `st.secrets` may itself raise
(modelled by `secretsAccess = Except.error ()`), in which case the key is
treated as absent; presence of `GSHEETS_DOC_ID` selects the remote backend
(parsing credentials first, then constructing the client), absence selects
the local CSV backend at the fixed default path. -/
def get_storage (parseJson : String → Option (List (String × String)))
    (secretsAccess : Except Unit Secrets) (gspreadAvailable : Bool) :
    Except StoreError StorageModel :=
  match secretsAccess with
  | Except.error _ => Except.ok (StorageModel.localCSV "data/quotes.csv")
  | Except.ok s =>
    if s.hasKey "GSHEETS_DOC_ID" then
      match parsedCreds parseJson s with
      | none => Except.error StoreError.credentialsUnparsable
      | some credentials =>
        GoogleSheetStorage.init gspreadAvailable
          ((s.get? "GSHEETS_DOC_ID").getD (SecretVal.str ""))
          ((s.get? "GSHEETS_WORKSHEET").getD (SecretVal.str "quotes"))
          credentials
    else Except.ok (StorageModel.localCSV "data/quotes.csv")

/-- Whether the configuration contains the connection identifier, with a
raising secrets store counting as absent. -/
def hasDocId (secretsAccess : Except Unit Secrets) : Bool :=
  match secretsAccess with
  | Except.error _ => false
  | Except.ok s => s.hasKey "GSHEETS_DOC_ID"

/-! ## Lemmas about the sort model -/

theorem mem_insortBy (key : Rec → ℕ) (r a : Rec) (l : List Rec) :
    a ∈ insortBy key r l ↔ a = r ∨ a ∈ l := by
  induction l with
  | nil => simp [insortBy]
  | cons s rest ih =>
    simp only [insortBy]
    split
    · simp only [List.mem_cons, ih]
      tauto
    · simp only [List.mem_cons]

theorem insortBy_perm (key : Rec → ℕ) (r : Rec) (l : List Rec) :
    (insortBy key r l).Perm (r :: l) := by
  induction l with
  | nil => simp [insortBy]
  | cons s rest ih =>
    simp only [insortBy]
    split
    · exact (ih.cons s).trans (List.Perm.swap r s rest)
    · exact List.Perm.refl _

theorem sortValuesBy_perm (key : Rec → ℕ) (l : List Rec) :
    (sortValuesBy key l).Perm l := by
  induction l with
  | nil => simp [sortValuesBy]
  | cons r rest ih =>
    simp only [sortValuesBy]
    exact (insortBy_perm key r _).trans (ih.cons r)

theorem sorted_insortBy (key : Rec → ℕ) (r : Rec) {l : List Rec}
    (hl : l.Sorted (fun a b => key a ≤ key b)) :
    (insortBy key r l).Sorted (fun a b => key a ≤ key b) := by
  induction l with
  | nil => simp [insortBy]
  | cons s rest ih =>
    rw [List.sorted_cons] at hl
    simp only [insortBy]
    split
    · rename_i h
      rw [List.sorted_cons]
      refine ⟨fun b hb => ?_, ih hl.2⟩
      rcases (mem_insortBy key r b rest).1 hb with rfl | hb
      · exact le_of_lt h
      · exact hl.1 b hb
    · rename_i h
      rw [List.sorted_cons]
      refine ⟨fun b hb => ?_, List.sorted_cons.2 hl⟩
      rcases List.mem_cons.1 hb with rfl | hb
      · exact le_of_not_lt h
      · exact le_trans (le_of_not_lt h) (hl.1 b hb)

theorem sorted_sortValuesBy (key : Rec → ℕ) (l : List Rec) :
    (sortValuesBy key l).Sorted (fun a b => key a ≤ key b) := by
  induction l with
  | nil => simp [sortValuesBy]
  | cons r rest ih => exact sorted_insortBy key r ih

/-! ## Last-element lemmas -/

theorem getLast?_cons_of_ne_nil {α : Type _} {a : α} {l : List α} (h : l ≠ []) :
    (a :: l).getLast? = l.getLast? := by
  cases l with
  | nil => exact absurd rfl h
  | cons b m => exact List.getLast?_cons_cons

theorem getLast?_cons_ne_none {α : Type _} (a : α) (l : List α) :
    (a :: l).getLast? ≠ none := by
  induction l generalizing a with
  | nil => simp
  | cons b m ih =>
    rw [List.getLast?_cons_cons]
    exact ih b

theorem mem_of_getLast?_some {α : Type _} : ∀ {l : List α} {a : α},
    l.getLast? = some a → a ∈ l := by
  intro l
  induction l with
  | nil => simp
  | cons b m ih =>
    intro a h
    cases m with
    | nil =>
      simp only [List.getLast?_singleton, Option.some.injEq] at h
      simp [h]
    | cons c m' =>
      rw [List.getLast?_cons_cons] at h
      exact List.mem_cons_of_mem b (ih h)

/-! ## Lemmas about the per-group tail selection -/

theorem mem_keepLastPerPlayer {r : Rec} : ∀ {l : List Rec},
    r ∈ keepLastPerPlayer l → r ∈ l := by
  intro l
  induction l with
  | nil => simp [keepLastPerPlayer]
  | cons s rest ih =>
    simp only [keepLastPerPlayer]
    split
    · intro h
      exact List.mem_cons_of_mem s (ih h)
    · intro h
      rcases List.mem_cons.1 h with rfl | h
      · exact List.mem_cons_self _ _
      · exact List.mem_cons_of_mem s (ih h)

theorem filter_keepLastPerPlayer (p : String) (l : List Rec) :
    (keepLastPerPlayer l).filter (isPlayer p)
      = ((l.filter (isPlayer p)).getLast?).toList := by
  induction l with
  | nil => simp [keepLastPerPlayer]
  | cons r rest ih =>
    simp only [keepLastPerPlayer]
    by_cases hp : r.player = some p
    · have hpq : isPlayer p r = true := by simp [isPlayer, hp]
      by_cases hany : (rest.any fun s => s.player = r.player) = true
      · rw [if_pos hany, List.filter_cons_of_pos hpq]
        have hne : rest.filter (isPlayer p) ≠ [] := by
          rcases List.any_eq_true.1 hany with ⟨s, hs, hsp⟩
          have hsp' : s.player = some p := by
            rw [of_decide_eq_true hsp, hp]
          intro hnil
          rw [List.filter_eq_nil_iff] at hnil
          have := hnil s hs
          simp [isPlayer, hsp'] at this
        rw [getLast?_cons_of_ne_nil hne]
        exact ih
      · rw [if_neg hany, List.filter_cons_of_pos hpq, List.filter_cons_of_pos hpq]
        have hnil : rest.filter (isPlayer p) = [] := by
          rw [List.filter_eq_nil_iff]
          intro s hs
          simp only [isPlayer, decide_eq_true_eq]
          intro hsp
          exact hany (List.any_eq_true.2 ⟨s, hs, by simp [hsp, hp]⟩)
        rw [ih, hnil]
        simp
    · have hpq : ¬ isPlayer p r = true := by simp [isPlayer, hp]
      by_cases hany : (rest.any fun s => s.player = r.player) = true
      · rw [if_pos hany, List.filter_cons_of_neg hpq]
        exact ih
      · rw [if_neg hany, List.filter_cons_of_neg hpq, List.filter_cons_of_neg hpq]
        exact ih

/-! ## Claim C2: the latest-per-player snapshot -/

theorem sortValuesBy_isSortValuesImpl (key : Rec → ℕ) :
    isSortValuesImpl key (sortValuesBy key) :=
  fun l => ⟨sortValuesBy_perm key l, sorted_sortValuesBy key l⟩

theorem key_le_getLast_of_sorted (key : Rec → ℕ) :
    ∀ {l : List Rec}, l.Sorted (fun a b => key a ≤ key b) →
      ∀ {a : Rec}, l.getLast? = some a → ∀ b ∈ l, key b ≤ key a := by
  intro l
  induction l with
  | nil => simp
  | cons s rest ih =>
    intro hl a ha b hb
    rw [List.sorted_cons] at hl
    cases rest with
    | nil =>
      simp only [List.getLast?_singleton, Option.some.injEq] at ha
      rcases List.mem_cons.1 hb with rfl | hb
      · rw [ha]
      · simp at hb
    | cons c m =>
      rw [List.getLast?_cons_cons] at ha
      rcases List.mem_cons.1 hb with rfl | hb
      · exact hl.1 a (mem_of_getLast?_some ha)
      · exact ih hl.2 ha b hb

/-- C2 (amended): for every conforming `sort_values` implementation (sorted
permutation; the default kind fixes no order among equal timestamps), every
event-filtered record set and every player `p`: all snapshot rows have a
present player; `p` has a snapshot row exactly when it has a valid (player
present, timestamp parsable) event-filtered record, and at most one; that row
is one of `p`'s valid records and attains the maximum timestamp among them;
and when a single record attains that maximum, it is the selected one. -/
theorem latestPerPlayer_max_correct
    (sortImpl : List Rec → List Rec) (hsort : isSortValuesImpl tsKey sortImpl)
    (event_name : String) (rows : List Rec) (p : String) :
    (∀ r ∈ latestPerPlayerWith sortImpl event_name rows, r.player.isSome)
    ∧ ((latestPerPlayerWith sortImpl event_name rows).filter (isPlayer p) = []
        ↔ ((eventFilter event_name rows).filter snapshotValid).filter (isPlayer p) = [])
    ∧ ((latestPerPlayerWith sortImpl event_name rows).filter (isPlayer p)).length ≤ 1
    ∧ ∀ r ∈ (latestPerPlayerWith sortImpl event_name rows).filter (isPlayer p),
        r ∈ ((eventFilter event_name rows).filter snapshotValid).filter (isPlayer p)
        ∧ (∀ s ∈ ((eventFilter event_name rows).filter snapshotValid).filter (isPlayer p),
            tsKey s ≤ tsKey r)
        ∧ ∀ s0 ∈ ((eventFilter event_name rows).filter snapshotValid).filter (isPlayer p),
            (∀ s ∈ ((eventFilter event_name rows).filter snapshotValid).filter (isPlayer p),
              s ≠ s0 → tsKey s < tsKey s0) → r = s0 := by
  rcases hsort ((eventFilter event_name rows).filter snapshotValid) with ⟨hperm, hsorted⟩
  have hfilter : (latestPerPlayerWith sortImpl event_name rows).filter (isPlayer p)
      = (((sortImpl ((eventFilter event_name rows).filter snapshotValid)).filter
          (isPlayer p)).getLast?).toList :=
    filter_keepLastPerPlayer p _
  have hFperm : ((sortImpl ((eventFilter event_name rows).filter snapshotValid)).filter
      (isPlayer p)).Perm
      (((eventFilter event_name rows).filter snapshotValid).filter (isPlayer p)) :=
    hperm.filter (isPlayer p)
  have hFsorted : ((sortImpl ((eventFilter event_name rows).filter snapshotValid)).filter
      (isPlayer p)).Sorted (fun a b => tsKey a ≤ tsKey b) :=
    List.Pairwise.sublist (List.filter_sublist _) hsorted
  refine ⟨?_, ?_, ?_, ?_⟩
  · intro r hr
    have h1 : r ∈ sortImpl ((eventFilter event_name rows).filter snapshotValid) :=
      mem_keepLastPerPlayer hr
    have h2 : r ∈ (eventFilter event_name rows).filter snapshotValid :=
      hperm.mem_iff.1 h1
    have h3 := List.of_mem_filter h2
    simp only [snapshotValid, Bool.and_eq_true] at h3
    exact h3.1
  · rw [hfilter]
    cases hF : ((sortImpl ((eventFilter event_name rows).filter snapshotValid)).filter
        (isPlayer p)) with
    | nil =>
      rw [hF] at hFperm
      simp only [Option.toList]
      constructor
      · intro _
        exact (hFperm.symm.eq_nil)
      · intro _
        rfl
    | cons a t =>
      rw [hF] at hFperm
      cases hlast : (a :: t).getLast? with
      | none => exact absurd hlast (getLast?_cons_ne_none a t)
      | some b =>
        simp only [Option.toList]
        constructor
        · intro hcontra
          exact absurd hcontra (by simp)
        · intro hnil
          rw [hnil] at hFperm
          exact absurd hFperm.eq_nil (by simp)
  · rw [hfilter]
    cases ((sortImpl ((eventFilter event_name rows).filter snapshotValid)).filter
        (isPlayer p)).getLast? with
    | none => simp
    | some a => simp
  · intro r hr
    rw [hfilter] at hr
    cases hlast : ((sortImpl ((eventFilter event_name rows).filter snapshotValid)).filter
        (isPlayer p)).getLast? with
    | none =>
      rw [hlast] at hr
      simp at hr
    | some a =>
      rw [hlast] at hr
      simp only [Option.toList, List.mem_singleton] at hr
      subst hr
      have hrF : r ∈ (sortImpl ((eventFilter event_name rows).filter snapshotValid)).filter
          (isPlayer p) := mem_of_getLast?_some hlast
      have hrFV : r ∈ ((eventFilter event_name rows).filter snapshotValid).filter
          (isPlayer p) := hFperm.mem_iff.1 hrF
      have hmax : ∀ s ∈ ((eventFilter event_name rows).filter snapshotValid).filter
          (isPlayer p), tsKey s ≤ tsKey r := by
        intro s hs
        exact key_le_getLast_of_sorted tsKey hFsorted hlast s (hFperm.mem_iff.2 hs)
      refine ⟨hrFV, hmax, ?_⟩
      intro s0 hs0 huniq
      by_contra hne
      exact absurd (hmax s0 hs0) (not_le.2 (huniq r hrFV hne))

/-- The earlier observation of Alice for event "E". -/
def aliceEarly : Rec :=
  { timestamp_utc := some 1, date := some 1, player := some "Alice",
    event := "E", quote := 2, implied_probability := 0 }

/-- The later observation of Alice for event "E". -/
def aliceLate : Rec :=
  { timestamp_utc := some 5, date := some 5, player := some "Alice",
    event := "E", quote := 3, implied_probability := 0 }

/-- A stored log with two observations of the same player. -/
def snapshotSample : List Rec := [aliceEarly, aliceLate]

/-- Witness for the amended C2, with the concrete conforming sort
`sortValuesBy` at a concrete two-observation log. -/
theorem latestPerPlayer_max_correct_witness :
    ((latestPerPlayerWith (sortValuesBy tsKey) "E" snapshotSample).filter (isPlayer "Alice") = []
      ↔ ((eventFilter "E" snapshotSample).filter snapshotValid).filter (isPlayer "Alice") = [])
    ∧ ((latestPerPlayerWith (sortValuesBy tsKey) "E" snapshotSample).filter
        (isPlayer "Alice")).length ≤ 1 :=
  ⟨(latestPerPlayer_max_correct (sortValuesBy tsKey) (sortValuesBy_isSortValuesImpl tsKey)
      "E" snapshotSample "Alice").2.1,
   (latestPerPlayer_max_correct (sortValuesBy tsKey) (sortValuesBy_isSortValuesImpl tsKey)
      "E" snapshotSample "Alice").2.2.1⟩

/-- A conforming but anti-stable `sort_values` implementation: stable-sort the
reversed input, so rows with equal keys end up in reversed stored order. It
satisfies everything pandas guarantees of the default unstable sort. -/
def antiStableSort (key : Rec → ℕ) (l : List Rec) : List Rec :=
  sortValuesBy key l.reverse

theorem antiStableSort_isSortValuesImpl (key : Rec → ℕ) :
    isSortValuesImpl key (antiStableSort key) :=
  fun l => ⟨(sortValuesBy_perm key l.reverse).trans (List.reverse_perm l),
    sorted_sortValuesBy key l.reverse⟩

/-- The first-stored observation of Alice, timestamp 7. -/
def aliceTieEarly : Rec :=
  { timestamp_utc := some 7, date := some 1, player := some "Alice",
    event := "E", quote := 2, implied_probability := 0 }

/-- The second-stored observation of Alice, the same timestamp 7. -/
def aliceTieLate : Rec :=
  { timestamp_utc := some 7, date := some 2, player := some "Alice",
    event := "E", quote := 3, implied_probability := 0 }

/-- A stored log with two records of one player sharing the maximum
timestamp. -/
def tieSample : List Rec := [aliceTieEarly, aliceTieLate]

/-- C2 counterexample to the tie-break clause: `sort_values` with the default
kind guarantees only a sorted permutation, and under the conforming
implementation `antiStableSort` (sorted and a permutation on this input, as
stated) two records of Alice sharing the maximum timestamp make the snapshot
select the record occurring EARLIER in stored order — so the program does not
guarantee that the later-stored record wins a timestamp tie. -/
theorem latest_tiebreak_cex :
    (antiStableSort tsKey ((eventFilter "E" tieSample).filter snapshotValid)).Perm
        ((eventFilter "E" tieSample).filter snapshotValid)
    ∧ (antiStableSort tsKey ((eventFilter "E" tieSample).filter snapshotValid)).Sorted
        (fun a b => tsKey a ≤ tsKey b)
    ∧ tsKey aliceTieEarly = tsKey aliceTieLate
    ∧ tieSample = [aliceTieEarly, aliceTieLate]
    ∧ (latestPerPlayerWith (antiStableSort tsKey) "E" tieSample).filter (isPlayer "Alice")
        = [aliceTieEarly]
    ∧ aliceTieEarly ≠ aliceTieLate :=
  ⟨(antiStableSort_isSortValuesImpl tsKey _).1,
   (antiStableSort_isSortValuesImpl tsKey _).2,
   by decide, rfl, by decide, by decide⟩

/-! ## Claim C3: the chart applies no distinct-date threshold -/

/-- Bob's first observation: date 1 of event "E". -/
def bobRow1 : Rec :=
  { timestamp_utc := some 1, date := some 1, player := some "Bob",
    event := "E", quote := 2, implied_probability := 0 }

/-- Bob's second observation: date 2 of event "E". -/
def bobRow2 : Rec :=
  { timestamp_utc := some 2, date := some 2, player := some "Bob",
    event := "E", quote := 3, implied_probability := 0 }

/-- Carol's only observation: date 1 of event "E". -/
def carolRow : Rec :=
  { timestamp_utc := some 3, date := some 1, player := some "Carol",
    event := "E", quote := 4, implied_probability := 0 }

/-- A stored log where Bob has two distinct dates and Carol only one. -/
def c3SampleRows : List Rec := [bobRow1, bobRow2, carolRow]

/-- C3 counterexample: Carol has exactly one distinct date with a value among
the event-filtered records, yet her row is part of the rendered chart (the
code applies no two-distinct-dates threshold and shows no listing fallback). -/
theorem chart_threshold_cex :
    distinctDates "Carol" (eventFilter "E" c3SampleRows) = 1
    ∧ 2 ≤ distinctDates "Bob" (eventFilter "E" c3SampleRows)
    ∧ carolRow ∈ chartRows "E" c3SampleRows
    ∧ chartView "E" c3SampleRows = ChartView.chart (chartRows "E" c3SampleRows) := by
  decide

/-- C3 amended: no distinct-date threshold is applied — the chart view keeps
every event-filtered record with a present player and a parsable date, sorted
by date ascending, no matter how many distinct dates its player has; and the
view degrades to a placeholder message (not a listing) exactly when no
event-filtered record has both a present player and a parsable date. -/
theorem chartView_no_threshold (event_name : String) (rows : List Rec) :
    (chartRows event_name rows).Perm ((eventFilter event_name rows).filter chartValid)
    ∧ (chartRows event_name rows).Sorted (fun a b => dateKey a ≤ dateKey b)
    ∧ (chartView event_name rows = ChartView.placeholderMessage
        ↔ (eventFilter event_name rows).filter chartValid = []) := by
  refine ⟨sortValuesBy_perm dateKey _, sorted_sortValuesBy dateKey _, ?_⟩
  have hperm : (chartRows event_name rows).Perm
      ((eventFilter event_name rows).filter chartValid) :=
    sortValuesBy_perm dateKey _
  constructor
  · intro hmsg
    simp only [chartView] at hmsg
    by_cases hcd : (chartRows event_name rows).isEmpty
    · have hnil : chartRows event_name rows = [] := by
        simpa [List.isEmpty_iff] using hcd
      rw [hnil] at hperm
      exact hperm.symm.eq_nil
    · rw [if_neg hcd] at hmsg
      simp at hmsg
  · intro hF
    rw [hF] at hperm
    have hnil : chartRows event_name rows = [] := hperm.eq_nil
    simp [chartView, hnil]

/-- Witness for the amended C3 at the concrete Bob/Carol log. -/
theorem chartView_no_threshold_witness :
    (chartRows "E" c3SampleRows).Perm
      ((eventFilter "E" c3SampleRows).filter chartValid)
    ∧ (chartRows "E" c3SampleRows).Sorted (fun a b => dateKey a ≤ dateKey b)
    ∧ (chartView "E" c3SampleRows = ChartView.placeholderMessage
        ↔ (eventFilter "E" c3SampleRows).filter chartValid = []) :=
  chartView_no_threshold "E" c3SampleRows

/-! ## Claim C1: the local CSV store is append-only -/

/-- C1: from a fresh store, appending records and reading returns exactly
those records in appended order; a further append extends the file by one row
at the end, leaving the first rows unchanged. -/
theorem append_read_roundtrip :
    (∀ (file : LocalCSVStorage) (r : Row),
        (file.append r).read = file.read ++ [r])
    ∧ (∀ rs : List Row,
        (LocalCSVStorage.empty.appendAll rs).read = rs)
    ∧ (∀ (rs : List Row) (r : Row),
        ((LocalCSVStorage.empty.appendAll (rs ++ [r])).read).take rs.length = rs) := by
  refine ⟨fun file r => rfl, fun rs => ?_, fun rs r => ?_⟩
  · rw [LocalCSVStorage.appendAll_eq]
    simp [LocalCSVStorage.empty, LocalCSVStorage.read]
  · rw [LocalCSVStorage.appendAll_eq]
    simp only [LocalCSVStorage.empty, LocalCSVStorage.read, List.nil_append]
    exact List.take_left rs [r]

/-! ## Bounds for the banker's rounding -/

theorem roundHalfEven_intCast (n : ℤ) : roundHalfEven (n : ℚ) = n := by
  norm_num [roundHalfEven, Int.floor_intCast]

theorem floor_le_roundHalfEven (x : ℚ) : ⌊x⌋ ≤ roundHalfEven x := by
  unfold roundHalfEven
  split_ifs <;> omega

theorem roundHalfEven_le_of_le {x : ℚ} {n : ℤ} (h : x ≤ (n : ℚ)) :
    roundHalfEven x ≤ n := by
  have hf : ⌊x⌋ ≤ n := by
    have h2 := Int.floor_le_floor h
    rwa [Int.floor_intCast] at h2
  have hcast : (⌊x⌋ : ℚ) ≤ x := Int.floor_le x
  unfold roundHalfEven
  split_ifs with h1 h2 h3
  · exact hf
  · by_contra hc
    push_neg at hc
    have hn : n = ⌊x⌋ := le_antisymm (by omega) hf
    have hx : (⌊x⌋ : ℚ) + 1/2 < x := by linarith
    have : ((n : ℤ) : ℚ) < x := by
      rw [hn]
      linarith
    linarith
  · exact hf
  · by_contra hc
    push_neg at hc
    have hn : n = ⌊x⌋ := le_antisymm (by omega) hf
    have hfrac : x - ⌊x⌋ = 1/2 := le_antisymm (not_lt.1 h2) (not_lt.1 h1)
    have : ((n : ℤ) : ℚ) < x := by
      rw [hn]
      linarith
    linarith

theorem one_le_roundHalfEven {x : ℚ} (h : 1/2 < x) : 1 ≤ roundHalfEven x := by
  rcases le_or_lt 1 ⌊x⌋ with hf | hf
  · have := floor_le_roundHalfEven x
    omega
  · have h0 : 0 ≤ ⌊x⌋ := Int.floor_nonneg.2 (le_of_lt (lt_trans (by norm_num) h))
    have hf0 : ⌊x⌋ = 0 := by omega
    unfold roundHalfEven
    rw [hf0]
    have hfrac : 1/2 < x - ((0:ℤ):ℚ) := by
      push_cast
      linarith
    rw [if_neg (not_lt.2 hfrac.le), if_pos hfrac]
    omega

/-! ## Claim C4: the stored implied probability -/

/-- C4: whenever the stored quote is positive, the stored
`implied_probability` equals `round(1/q, 6)` of the stored quote `q`, and it
coincides with the 6-decimal rounding of the on-demand preview value computed
before commit; both are pure functions of the submitted quote. -/
theorem impliedProbability_correct (ts d pl ev : String) (qin : ℚ)
    (h : 0 < (buildRow ts d pl ev qin).quote) :
    (buildRow ts d pl ev qin).implied_probability
        = pyRound 6 (1 / (buildRow ts d pl ev qin).quote)
    ∧ (buildRow ts d pl ev qin).implied_probability
        = pyRound 6 (previewImplied (submittedQuote qin)) := by
  have hq : submittedQuote qin ≠ 0 := ne_of_gt h
  constructor
  · show submittedImplied qin = pyRound 6 (1 / submittedQuote qin)
    rw [submittedImplied, previewImplied, if_pos hq]
  · rfl

/-- Evaluation of the rounded quote at the concrete input 2. -/
theorem submittedQuote_two : submittedQuote 2 = 2 := by
  norm_num [submittedQuote, pyRound, roundHalfEven]

/-- Witness for C4 at the concrete input 2. -/
theorem impliedProbability_correct_witness :
    (buildRow "t" "d" "Alice" "E" 2).implied_probability
        = pyRound 6 (1 / (buildRow "t" "d" "Alice" "E" 2).quote)
    ∧ (buildRow "t" "d" "Alice" "E" 2).implied_probability
        = pyRound 6 (previewImplied (submittedQuote 2)) :=
  impliedProbability_correct "t" "d" "Alice" "E" 2
    (by show (0:ℚ) < submittedQuote 2
        rw [submittedQuote_two]
        norm_num)

/-! ## Claim C5: bounds of the stored quote and implied probability -/

/-- C5 counterexample: the accepted minimum input `1e-6` is rounded to a
stored quote of 0 (not strictly positive) with stored implied probability 0;
and the accepted input `0.5` stores implied probability 2, outside (0, 1]. -/
theorem submission_bounds_cex :
    submittedQuote (1/1000000) = 0
    ∧ submittedImplied (1/1000000) = 0
    ∧ submittedQuote (1/2) = 1/2
    ∧ submittedImplied (1/2) = 2 := by
  refine ⟨?_, ?_, ?_, ?_⟩ <;>
    norm_num [submittedQuote, submittedImplied, previewImplied, pyRound, roundHalfEven]

/-- C5 amended: the stored quote is positive for every input whose 2-decimal
rounding is at least 0.01 (inputs below 0.005 are stored as quote 0), and the
stored implied probability lies in (0, 1] when the rounded quote is moreover
at least 1 and below 2000000 (a quote below 1 stores a value above 1, and a
quote of 2000000 or more rounds the stored value down to 0). -/
theorem submission_bounds_amended (qin : ℚ)
    (hq : 1/100 ≤ submittedQuote qin) :
    0 < submittedQuote qin
    ∧ (1 ≤ submittedQuote qin → submittedQuote qin < 2000000 →
        0 < submittedImplied qin ∧ submittedImplied qin ≤ 1) := by
  constructor
  · linarith
  · intro h1 h2
    have hqpos : (0:ℚ) < submittedQuote qin := by linarith
    have hprev : previewImplied (submittedQuote qin) = 1 / submittedQuote qin := by
      rw [previewImplied, if_pos (ne_of_gt hqpos)]
    have himp : submittedImplied qin = pyRound 6 (1 / submittedQuote qin) := by
      rw [submittedImplied, hprev]
    have hrecip : (1:ℚ)/2000000 < 1 / submittedQuote qin :=
      one_div_lt_one_div_of_lt hqpos h2
    have hy_pos : (1:ℚ)/2 < 1 / submittedQuote qin * 10 ^ 6 := by
      have hm := mul_lt_mul_of_pos_right hrecip (show (0:ℚ) < 10 ^ 6 by norm_num)
      norm_num at hm
      linarith
    have h1q : 1 / submittedQuote qin ≤ 1 := by
      rw [div_le_one hqpos]
      exact h1
    have hy_le : 1 / submittedQuote qin * 10 ^ 6 ≤ (((10 ^ 6 : ℤ)) : ℚ) := by
      push_cast
      nlinarith
    have hr1 : 1 ≤ roundHalfEven (1 / submittedQuote qin * 10 ^ 6) :=
      one_le_roundHalfEven hy_pos
    have hr2 : roundHalfEven (1 / submittedQuote qin * 10 ^ 6) ≤ 10 ^ 6 :=
      roundHalfEven_le_of_le hy_le
    rw [himp, pyRound]
    constructor
    · apply div_pos
      · have : ((1:ℤ):ℚ) ≤ (roundHalfEven (1 / submittedQuote qin * 10 ^ 6) : ℚ) := by
          exact_mod_cast hr1
        linarith
      · norm_num
    · rw [div_le_one (by norm_num)]
      have : ((roundHalfEven (1 / submittedQuote qin * 10 ^ 6) : ℤ) : ℚ)
          ≤ (((10 ^ 6 : ℤ)) : ℚ) := by
        exact_mod_cast hr2
      push_cast at this
      linarith

/-- Witness for the amended C5 at the concrete input 2. -/
theorem submission_bounds_amended_witness :
    0 < submittedQuote 2
    ∧ 0 < submittedImplied 2 ∧ submittedImplied 2 ≤ 1 := by
  have hq : (1:ℚ)/100 ≤ submittedQuote 2 := by
    rw [submittedQuote_two]
    norm_num
  have h1 : (1:ℚ) ≤ submittedQuote 2 := by
    rw [submittedQuote_two]
    norm_num
  have h2 : submittedQuote 2 < 2000000 := by
    rw [submittedQuote_two]
    norm_num
  exact ⟨(submission_bounds_amended 2 hq).1, (submission_bounds_amended 2 hq).2 h1 h2⟩

/-! ## Claim C6: the schema normalizer -/

theorem DF.nrows_setEmptyCol (df : DF) (c : String) :
    (df.setEmptyCol c).nrows = df.nrows := by
  cases h : df.cols with
  | nil => simp [DF.setEmptyCol, DF.nrows, h]
  | cons p rest => simp [DF.setEmptyCol, DF.nrows, h]

theorem DF.getCol_eq_none (df : DF) (c : String) (h : c ∉ df.colNames) :
    df.getCol c = none := by
  unfold DF.getCol
  rw [List.find?_eq_none.2]
  · rfl
  · intro pr hpr
    simp only [decide_eq_true_eq]
    intro hc
    exact h (hc ▸ List.mem_map_of_mem Prod.fst hpr)

theorem DF.getCol_isSome (df : DF) (c : String) (h : c ∈ df.colNames) :
    ∃ v, df.getCol c = some v := by
  have h1 : ∃ pr ∈ df.cols, (fun pr : String × List String => decide (pr.1 = c)) pr = true := by
    rcases List.mem_map.1 h with ⟨pr, hpr, hfst⟩
    exact ⟨pr, hpr, by simp [hfst]⟩
  have h2 := List.find?_isSome.2 h1
  rcases Option.isSome_iff_exists.1 h2 with ⟨pr, hfind⟩
  exact ⟨pr.2, by unfold DF.getCol; rw [hfind]; rfl⟩

theorem DF.getCol_length (df : DF) {c : String} {v : List String}
    (hwf : ∀ pr ∈ df.cols, pr.2.length = df.nrows) (h : df.getCol c = some v) :
    v.length = df.nrows := by
  unfold DF.getCol at h
  cases hf : df.cols.find? (fun pr => pr.1 = c) with
  | none =>
    rw [hf] at h
    simp at h
  | some pr =>
    rw [hf] at h
    simp only [Option.map_some', Option.some.injEq] at h
    rw [← h]
    exact hwf pr (List.mem_of_find?_eq_some hf)

theorem find?_append_single (cols : List (String × List String)) (c c' : String)
    (v : List String) :
    (cols ++ [(c', v)]).find? (fun pr => pr.1 = c)
      = if c ∈ cols.map Prod.fst then cols.find? (fun pr => pr.1 = c)
        else if c = c' then some (c', v) else none := by
  induction cols with
  | nil =>
    simp only [List.nil_append, List.map_nil, List.not_mem_nil, if_false]
    by_cases h : c = c'
    · subst h
      simp [List.find?]
    · rw [if_neg h]
      simp [List.find?, Ne.symm h]
  | cons p ps ih =>
    by_cases hp : p.1 = c
    · have hm : c ∈ (p :: ps).map Prod.fst := by
        simp [← hp]
      rw [if_pos hm, List.cons_append,
        List.find?_cons_of_pos _ (by simp [hp]),
        List.find?_cons_of_pos _ (by simp [hp])]
    · have hm : (c ∈ (p :: ps).map Prod.fst) ↔ (c ∈ ps.map Prod.fst) := by
        simp only [List.map_cons, List.mem_cons]
        constructor
        · intro h
          rcases h with h | h
          · exact absurd h.symm hp
          · exact h
        · exact Or.inr
      rw [List.cons_append, List.find?_cons_of_neg _ (by simp [hp]), ih]
      by_cases hin : c ∈ ps.map Prod.fst
      · rw [if_pos hin, if_pos (hm.2 hin), List.find?_cons_of_neg _ (by simp [hp])]
      · rw [if_neg hin, if_neg (fun hmm => hin (hm.1 hmm))]

theorem DF.getCol_setEmptyCol (df : DF) (c c' : String) :
    (df.setEmptyCol c').getCol c =
      if c ∈ df.colNames then df.getCol c
      else if c = c' then some (List.replicate df.nrows "") else none := by
  unfold DF.getCol DF.setEmptyCol DF.colNames
  rw [find?_append_single]
  by_cases h1 : c ∈ df.cols.map Prod.fst
  · rw [if_pos h1, if_pos h1]
  · rw [if_neg h1, if_neg h1]
    by_cases h2 : c = c'
    · rw [if_pos h2, if_pos h2]
      rfl
    · rw [if_neg h2, if_neg h2]
      rfl

theorem nrows_fillStep (d : DF) (c : String) : (fillStep d c).nrows = d.nrows := by
  unfold fillStep
  split
  · rfl
  · exact DF.nrows_setEmptyCol d c

theorem colNames_fillStep (d : DF) (c' : String) :
    (fillStep d c').colNames = d.colNames
      ∨ (fillStep d c').colNames = d.colNames ++ [c'] := by
  unfold fillStep
  split
  · exact Or.inl rfl
  · right
    simp [DF.setEmptyCol, DF.colNames]

theorem mem_colNames_fillStep {d : DF} {c : String} (c' : String) (h : c ∈ d.colNames) :
    c ∈ (fillStep d c').colNames := by
  rcases colNames_fillStep d c' with he | he <;> rw [he]
  · exact h
  · exact List.mem_append_left _ h

theorem not_mem_colNames_fillStep {d : DF} {c c' : String} (h : c ∉ d.colNames)
    (hne : c ≠ c') : c ∉ (fillStep d c').colNames := by
  rcases colNames_fillStep d c' with he | he <;> rw [he]
  · exact h
  · intro hm
    rcases List.mem_append.1 hm with hm | hm
    · exact h hm
    · simp only [List.mem_singleton] at hm
      exact hne hm

theorem getCol_fillStep (d : DF) (c c' : String) :
    (fillStep d c').getCol c =
      if c ∈ d.colNames then d.getCol c
      else if c = c' then some (List.replicate d.nrows "") else none := by
  unfold fillStep
  by_cases hc' : c' ∈ d.colNames
  · rw [if_pos hc']
    by_cases hc : c ∈ d.colNames
    · rw [if_pos hc]
    · rw [if_neg hc]
      by_cases hcc : c = c'
      · subst hcc
        exact absurd hc' hc
      · rw [if_neg hcc]
        exact DF.getCol_eq_none d c hc
  · rw [if_neg hc']
    exact DF.getCol_setEmptyCol d c c'

theorem getCol_foldl_fillStep (cs : List String) (d : DF) (c : String) :
    (cs.foldl fillStep d).getCol c
      = if c ∈ d.colNames then d.getCol c
        else if c ∈ cs then some (List.replicate d.nrows "") else none := by
  induction cs generalizing d with
  | nil =>
    by_cases hc : c ∈ d.colNames
    · rw [if_pos hc]
      rfl
    · rw [if_neg hc]
      simp only [List.not_mem_nil, if_false]
      exact DF.getCol_eq_none d c hc
  | cons c' cs' ih =>
    simp only [List.foldl_cons]
    rw [ih (fillStep d c')]
    by_cases hc : c ∈ d.colNames
    · rw [if_pos (mem_colNames_fillStep c' hc), if_pos hc, getCol_fillStep, if_pos hc]
    · rw [if_neg hc]
      by_cases hcc : c = c'
      · subst hcc
        have hfill : fillStep d c = d.setEmptyCol c := by
          unfold fillStep
          rw [if_neg hc]
        have hmem : c ∈ (fillStep d c).colNames := by
          rw [hfill]
          simp [DF.setEmptyCol, DF.colNames]
        rw [if_pos hmem, hfill, DF.getCol_setEmptyCol, if_neg hc, if_pos rfl,
          if_pos (List.mem_cons_self c cs')]
      · have hnm : c ∉ (fillStep d c').colNames := not_mem_colNames_fillStep hc hcc
        rw [if_neg hnm, nrows_fillStep]
        by_cases hin : c ∈ cs'
        · rw [if_pos hin, if_pos (List.mem_cons_of_mem c' hin)]
        · rw [if_neg hin, if_neg (by simp [List.mem_cons, hcc, hin])]

theorem find?_map_pair (names : List String) (f : String → List String) (c : String)
    (h : c ∈ names) :
    (names.map (fun n => (n, f n))).find? (fun pr => pr.1 = c) = some (c, f c) := by
  induction names with
  | nil => simp at h
  | cons n ns ih =>
    simp only [List.map_cons]
    by_cases hn : n = c
    · subst hn
      rw [List.find?_cons_of_pos _ (by simp)]
    · rw [List.find?_cons_of_neg _ (by simp [hn])]
      refine ih ?_
      rcases List.mem_cons.1 h with h | h
      · exact absurd h.symm hn
      · exact h

theorem getCol_mk_map (names : List String) (f : String → List String) (c : String)
    (h : c ∈ names) :
    (DF.mk (names.map (fun n => (n, f n)))).getCol c = some (f c) := by
  unfold DF.getCol
  rw [find?_map_pair names f c h]
  rfl

theorem nrows_mk_map_cons (n : String) (ns : List String) (f : String → List String) :
    (DF.mk ((n :: ns).map (fun m => (m, f m)))).nrows = (f n).length := rfl

theorem ensure_columns_eq (df : DF) :
    ensure_columns df
      = DF.mk (DATA_COLUMNS.map
          (fun c => (c, ((DATA_COLUMNS.foldl fillStep df).getCol c).getD []))) := rfl

/-- C6: `ensure_columns` always returns a table with exactly the six fixed
columns `DATA_COLUMNS`, in that order, with the input's row count (it is a
total function — it never raises); every requested column present in the
input keeps its data unchanged, and every missing one (such as `event`) is
filled with empty strings. -/
theorem ensure_columns_correct (df : DF)
    (hwf : ∀ pr ∈ df.cols, pr.2.length = df.nrows) :
    (ensure_columns df).colNames = DATA_COLUMNS
    ∧ (ensure_columns df).nrows = df.nrows
    ∧ ∀ c ∈ DATA_COLUMNS, (ensure_columns df).getCol c =
        if c ∈ df.colNames then df.getCol c
        else some (List.replicate df.nrows "") := by
  have hfold : ∀ c ∈ DATA_COLUMNS, (DATA_COLUMNS.foldl fillStep df).getCol c
      = if c ∈ df.colNames then df.getCol c
        else some (List.replicate df.nrows "") := by
    intro c hc
    rw [getCol_foldl_fillStep]
    by_cases h : c ∈ df.colNames
    · rw [if_pos h, if_pos h]
    · rw [if_neg h, if_neg h, if_pos hc]
  have hnames : (ensure_columns df).colNames = DATA_COLUMNS := by
    rw [ensure_columns_eq]
    unfold DF.colNames
    rw [List.map_map]
    rfl
  have hget : ∀ c ∈ DATA_COLUMNS, (ensure_columns df).getCol c
      = some (((DATA_COLUMNS.foldl fillStep df).getCol c).getD []) := by
    intro c hc
    rw [ensure_columns_eq]
    exact getCol_mk_map DATA_COLUMNS
      (fun c => ((DATA_COLUMNS.foldl fillStep df).getCol c).getD []) c hc
  refine ⟨hnames, ?_, ?_⟩
  · have h1 := hfold "timestamp_utc" (by simp [DATA_COLUMNS])
    have hstep : (ensure_columns df).nrows
        = (((DATA_COLUMNS.foldl fillStep df).getCol "timestamp_utc").getD []).length := by
      rw [ensure_columns_eq]
      exact nrows_mk_map_cons "timestamp_utc" _ _
    rw [hstep, h1]
    by_cases h : "timestamp_utc" ∈ df.colNames
    · rw [if_pos h]
      rcases DF.getCol_isSome df _ h with ⟨v, hv⟩
      rw [hv]
      exact DF.getCol_length df hwf hv
    · rw [if_neg h]
      simp
  · intro c hc
    rw [hget c hc, hfold c hc]
    by_cases h : c ∈ df.colNames
    · rw [if_pos h]
      rcases DF.getCol_isSome df c h with ⟨v, hv⟩
      rw [hv]
      rfl
    · rw [if_neg h]
      rfl

/-- A five-column, one-row table missing the `event` column. -/
def c6SampleDF : DF :=
  ⟨[("timestamp_utc", ["2024-01-01T00:00:00+00:00"]), ("date", ["2024-01-01"]),
    ("player", ["Alice"]), ("quote", ["2.0"]), ("implied_probability", ["0.5"])]⟩

/-- Witness for C6 on the concrete table missing its `event` column. -/
theorem ensure_columns_correct_witness :
    (ensure_columns c6SampleDF).colNames = DATA_COLUMNS
    ∧ (ensure_columns c6SampleDF).nrows = c6SampleDF.nrows
    ∧ (ensure_columns c6SampleDF).getCol "event" =
        (if "event" ∈ c6SampleDF.colNames then c6SampleDF.getCol "event"
         else some (List.replicate c6SampleDF.nrows "")) :=
  ⟨(ensure_columns_correct c6SampleDF (by decide)).1,
   (ensure_columns_correct c6SampleDF (by decide)).2.1,
   (ensure_columns_correct c6SampleDF (by decide)).2.2 "event" (by decide)⟩

/-! ## Claim C9: empty names are rejected before any append -/

/-- C9: a submission with an empty event name or an empty player name stops
before any append: the handler reports `appendCalled = false` and returns the
stored log unchanged, so its row count is unchanged. -/
theorem empty_submission_rejected (event_name player_name ts d : String) (qin : ℚ)
    (log : LocalCSVStorage) (h : event_name = "" ∨ player_name = "") :
    submitHandler event_name player_name ts d qin log
      = { log := log, appendCalled := false }
    ∧ (submitHandler event_name player_name ts d qin log).log.length = log.length := by
  have hres : submitHandler event_name player_name ts d qin log
      = { log := log, appendCalled := false } := by
    unfold submitHandler
    rcases h with h | h
    · rw [if_pos h]
    · by_cases he : event_name = ""
      · rw [if_pos he]
      · rw [if_neg he, if_pos h]
  exact ⟨hres, by rw [hres]⟩

/-- Witness for C9: an empty event name with a non-empty player. -/
theorem empty_submission_rejected_witness :
    submitHandler "" "Alice" "t" "d" 2 LocalCSVStorage.empty
      = { log := LocalCSVStorage.empty, appendCalled := false }
    ∧ (submitHandler "" "Alice" "t" "d" 2 LocalCSVStorage.empty).log.length
      = LocalCSVStorage.empty.length :=
  empty_submission_rejected "" "Alice" "t" "d" 2 LocalCSVStorage.empty (Or.inl rfl)

/-! ## Claims C7, C8, C10: backend selection in `get_storage` -/

theorem get_storage_ok_cases
    (parseJson : String → Option (List (String × String)))
    (s : Secrets) (gspreadAvailable : Bool) (hk : s.hasKey "GSHEETS_DOC_ID" = true) :
    get_storage parseJson (Except.ok s) gspreadAvailable
      = match parsedCreds parseJson s with
        | none => Except.error StoreError.credentialsUnparsable
        | some credentials =>
            GoogleSheetStorage.init gspreadAvailable
              ((s.get? "GSHEETS_DOC_ID").getD (SecretVal.str ""))
              ((s.get? "GSHEETS_WORKSHEET").getD (SecretVal.str "quotes"))
              credentials := by
  simp [get_storage, hk]

theorem get_storage_no_key
    (parseJson : String → Option (List (String × String)))
    (s : Secrets) (gspreadAvailable : Bool) (hk : ¬ s.hasKey "GSHEETS_DOC_ID" = true) :
    get_storage parseJson (Except.ok s) gspreadAvailable
      = Except.ok (StorageModel.localCSV "data/quotes.csv") := by
  simp [get_storage, hk]

/-- C7: whenever store construction returns a backend, that backend is the
remote sheet store exactly when the connection identifier `GSHEETS_DOC_ID` is
present in the configuration; when the identifier is absent (including a
raising secrets store) the returned backend is the local CSV store at the
fixed default path `data/quotes.csv`. The decision is made in the single
construction-time call `get_storage`. -/
theorem get_storage_backend_selection
    (parseJson : String → Option (List (String × String)))
    (secretsAccess : Except Unit Secrets) (gspreadAvailable : Bool) :
    (∀ st, get_storage parseJson secretsAccess gspreadAvailable = Except.ok st →
        ((∃ i w cr, st = StorageModel.googleSheet i w cr)
          ↔ hasDocId secretsAccess = true))
    ∧ (hasDocId secretsAccess = false →
        get_storage parseJson secretsAccess gspreadAvailable
          = Except.ok (StorageModel.localCSV "data/quotes.csv")) := by
  cases secretsAccess with
  | error e =>
    refine ⟨fun st hst => ?_, fun _ => rfl⟩
    have hst' : StorageModel.localCSV "data/quotes.csv" = st := by
      injection hst
    constructor
    · rintro ⟨i, w, cr, rfl⟩
      exact absurd hst' (by simp)
    · intro hdoc
      simp [hasDocId] at hdoc
  | ok s =>
    by_cases hk : s.hasKey "GSHEETS_DOC_ID" = true
    · refine ⟨fun st hst => ?_, fun hdoc => ?_⟩
      · rw [get_storage_ok_cases parseJson s gspreadAvailable hk] at hst
        cases hpc : parsedCreds parseJson s with
        | none =>
          rw [hpc] at hst
          exact absurd hst (by simp)
        | some cr =>
          rw [hpc] at hst
          cases gspreadAvailable with
          | false =>
            simp [GoogleSheetStorage.init] at hst
          | true =>
            simp only [GoogleSheetStorage.init, if_true] at hst
            have hst' : StorageModel.googleSheet
                ((s.get? "GSHEETS_DOC_ID").getD (SecretVal.str ""))
                ((s.get? "GSHEETS_WORKSHEET").getD (SecretVal.str "quotes")) cr = st := by
              injection hst
            constructor
            · intro _
              simpa [hasDocId] using hk
            · intro _
              exact ⟨_, _, cr, hst'.symm⟩
      · simp only [hasDocId] at hdoc
        rw [hdoc] at hk
        exact absurd hk (by simp)
    · refine ⟨fun st hst => ?_, fun _ => get_storage_no_key parseJson s gspreadAvailable hk⟩
      rw [get_storage_no_key parseJson s gspreadAvailable hk] at hst
      have hst' : StorageModel.localCSV "data/quotes.csv" = st := by
        injection hst
      constructor
      · rintro ⟨i, w, cr, rfl⟩
        exact absurd hst' (by simp)
      · intro hdoc
        simp only [hasDocId] at hdoc
        exact absurd hdoc hk

/-- A configuration containing the remote connection identifier. -/
def sampleSecrets : Secrets := ⟨[("GSHEETS_DOC_ID", SecretVal.str "doc123")]⟩

/-- Witness for C7: with the identifier present the backend actually returned
is remote (so the identifier is reported present); with an empty
configuration the local default is returned. -/
theorem get_storage_backend_selection_witness :
    hasDocId (Except.ok sampleSecrets) = true
    ∧ get_storage (fun _ => some []) (Except.ok (Secrets.mk [])) true
      = Except.ok (StorageModel.localCSV "data/quotes.csv") :=
  ⟨((get_storage_backend_selection (fun _ => some []) (Except.ok sampleSecrets) true).1
      (StorageModel.googleSheet (SecretVal.str "doc123") (SecretVal.str "quotes") [])
      rfl).mp ⟨_, _, _, rfl⟩,
   (get_storage_backend_selection (fun _ => some []) (Except.ok (Secrets.mk [])) true).2
      (by decide)⟩

/-- C8: with the connection identifier present, an unparsable credential
payload or an unavailable client library makes store construction fail with
the corresponding distinguishable error — never a silent fall back to the
local backend. -/
theorem remote_misconfiguration_fails
    (parseJson : String → Option (List (String × String)))
    (s : Secrets) (gspreadAvailable : Bool)
    (hdoc : s.hasKey "GSHEETS_DOC_ID" = true)
    (hbad : parsedCreds parseJson s = none ∨ gspreadAvailable = false) :
    get_storage parseJson (Except.ok s) gspreadAvailable
      = Except.error (if parsedCreds parseJson s = none
          then StoreError.credentialsUnparsable else StoreError.gspreadUnavailable)
    ∧ ∀ p, get_storage parseJson (Except.ok s) gspreadAvailable
        ≠ Except.ok (StorageModel.localCSV p) := by
  have hmain : get_storage parseJson (Except.ok s) gspreadAvailable
      = Except.error (if parsedCreds parseJson s = none
          then StoreError.credentialsUnparsable else StoreError.gspreadUnavailable) := by
    rw [get_storage_ok_cases parseJson s gspreadAvailable hdoc]
    cases hpc : parsedCreds parseJson s with
    | none => simp
    | some cr =>
      have hav : gspreadAvailable = false := by
        rcases hbad with hb | hb
        · rw [hpc] at hb
          exact absurd hb (by simp)
        · exact hb
      subst hav
      simp [GoogleSheetStorage.init]
  refine ⟨hmain, fun p hok => ?_⟩
  rw [hmain] at hok
  exact Except.noConfusion hok

/-- Witness for C8: identifier present, JSON parsing fails. -/
theorem remote_misconfiguration_fails_witness :
    get_storage (fun _ => none) (Except.ok sampleSecrets) true
      = Except.error (if parsedCreds (fun _ => none) sampleSecrets = none
          then StoreError.credentialsUnparsable else StoreError.gspreadUnavailable)
    ∧ get_storage (fun _ => none) (Except.ok sampleSecrets) true
        ≠ Except.ok (StorageModel.localCSV "data/quotes.csv") :=
  ⟨(remote_misconfiguration_fails (fun _ => none) sampleSecrets true (by decide)
      (Or.inl (by decide))).1,
   (remote_misconfiguration_fails (fun _ => none) sampleSecrets true (by decide)
      (Or.inl (by decide))).2 "data/quotes.csv"⟩

/-- C10: when probing the configuration store itself raises, `get_storage`
treats the configuration as absent and silently returns the local CSV backend
at the default path instead of propagating the error. -/
theorem secrets_access_error_uses_local
    (parseJson : String → Option (List (String × String))) (gspreadAvailable : Bool) :
    get_storage parseJson (Except.error ()) gspreadAvailable
      = Except.ok (StorageModel.localCSV "data/quotes.csv") := rfl
